import Mathlib

/-!
# Verification of the swarmit testbed controller against its specification

Shallow embedding of the swarmit repository (`swarmit/testbed/protocol.py`,
`swarmit/testbed/adapter.py`, `swarmit/cli/main.py`, and the command
dispatcher / OTA engine of `swarmit/testbed/controller.py`) together with
proofs and refutations of the specification's claims.

Conventions:
* Python `bytes` values are `List Nat` (one entry per byte).
* Python `int` fields of payload dataclasses are `Int` (Python integers are
  signed and unbounded; the wire codec restricts them per field).
* Fallible operations return `Option`.
-/

namespace Swarmit

/-! ## Generic field marshaller

Modelled from the spec: the generic field marshaller of
`dotbot_utils.protocol.Payload` / `PayloadFieldMetadata` is an external
dependency whose source is not part of this repository.  Per the spec
(§4.1, §6.1): all integers are little-endian; each field has a byte
`length`; fields are unsigned unless declared signed (the spec's table uses
u8/u16/u32 for fields whose metadata carries no `signed` flag and i32 for
the fields declared with `signed=True`); a variable-length bytes field
(declared length 0) spans `count` bytes where `count` is the preceding
one-byte field; encoding fails if an integer does not fit its field and
decoding fails when fewer bytes remain than a field's declared length.
Metadata entries are paired positionally with the dataclass fields
(`swarmit/tests/utils.py` reads `payload.fw_chunk_count` successfully after
a decode even though the corresponding metadata entry is misnamed
`fw_chunk_counts`, so pairing cannot be by metadata name). -/

/-- Little-endian byte representation: `toLEBytes n v` is the `n` low-order
bytes of `v`, least significant first (the digits of `v mod 256^n`). -/
def toLEBytes : Nat → Nat → List Nat
  | 0, _ => []
  | n + 1, v => v % 256 :: toLEBytes n (v / 256)

/-- Little-endian byte decoding: value of a byte list, least significant
byte first. -/
def fromLEBytes : List Nat → Nat
  | [] => 0
  | b :: bs => b + 256 * fromLEBytes bs

/-- Encode a Python int into `len` unsigned little-endian bytes.
Fails (like `int.to_bytes(len, "little", signed=False)`) when the value is
negative or does not fit. -/
def encodeUnsignedLE (len : Nat) (v : Int) : Option (List Nat) :=
  if 0 ≤ v ∧ v < (2 : Int) ^ (8 * len) then some (toLEBytes len v.toNat) else none

/-- Encode a Python int into `len` signed (two's complement) little-endian
bytes.  Fails when the value is outside the signed range. -/
def encodeSignedLE (len : Nat) (v : Int) : Option (List Nat) :=
  if -((2 : Int) ^ (8 * len - 1)) ≤ v ∧ v < (2 : Int) ^ (8 * len - 1) then
    some (toLEBytes len (v % (2 : Int) ^ (8 * len)).toNat)
  else none

/-- Decode `bs` as an unsigned little-endian integer. -/
def decodeUnsignedLE (bs : List Nat) : Int := (fromLEBytes bs : Int)

/-- Decode `bs` as a signed (two's complement) little-endian integer. -/
def decodeSignedLE (bs : List Nat) : Int :=
  let u := fromLEBytes bs
  if u < 2 ^ (8 * bs.length - 1) then (u : Int) else (u : Int) - (2 : Int) ^ (8 * bs.length)

theorem toLEBytes_length (n v : Nat) : (toLEBytes n v).length = n := by
  induction n generalizing v with
  | zero => rfl
  | succ k ih => simp [toLEBytes, ih]

theorem fromLEBytes_toLEBytes (n v : Nat) :
    fromLEBytes (toLEBytes n v) = v % 256 ^ n := by
  induction n generalizing v with
  | zero => simp [toLEBytes, fromLEBytes, Nat.mod_one]
  | succ k ih =>
    show v % 256 + 256 * fromLEBytes (toLEBytes k (v / 256)) = v % 256 ^ (k + 1)
    rw [ih, Nat.pow_succ, Nat.mul_comm (256 ^ k) 256, Nat.mod_mul]

theorem fromLEBytes_toLEBytes_of_lt (n v : Nat) (h : v < 256 ^ n) :
    fromLEBytes (toLEBytes n v) = v := by
  rw [fromLEBytes_toLEBytes, Nat.mod_eq_of_lt h]

/-! ## Payload dataclasses (`swarmit/testbed/protocol.py`)

Each structure mirrors one payload dataclass; the `encode`/`decode`
functions apply the marshaller to that dataclass's `metadata` list, field
by field, in metadata order. -/

/-- Read `n` bytes from the front of `bs`; fails (like the marshaller's
`InvalidPayload`) when fewer than `n` bytes remain. -/
def readBytes (n : Nat) (bs : List Nat) : Option (List Nat × List Nat) :=
  if n ≤ bs.length then some (bs.take n, bs.drop n) else none

/-- `PayloadStatus`: `device` (u8), `status` (u8), `battery` (u16),
`pos_x`/`pos_y` (length 4, `signed=True`). -/
structure PayloadStatus where
  device : Int := 0
  status : Int := 0
  battery : Int := 0
  pos_x : Int := 0
  pos_y : Int := 0
deriving DecidableEq, Repr

def PayloadStatus.encode (p : PayloadStatus) : Option (List Nat) := do
  let d ← encodeUnsignedLE 1 p.device
  let s ← encodeUnsignedLE 1 p.status
  let b ← encodeUnsignedLE 2 p.battery
  let x ← encodeSignedLE 4 p.pos_x
  let y ← encodeSignedLE 4 p.pos_y
  pure (d ++ s ++ b ++ x ++ y)

def PayloadStatus.decode (bs : List Nat) : Option PayloadStatus := do
  let (d, r1) ← readBytes 1 bs
  let (s, r2) ← readBytes 1 r1
  let (b, r3) ← readBytes 2 r2
  let (x, r4) ← readBytes 4 r3
  let (y, _) ← readBytes 4 r4
  pure
    { device := decodeUnsignedLE d
      status := decodeUnsignedLE s
      battery := decodeUnsignedLE b
      pos_x := decodeSignedLE x
      pos_y := decodeSignedLE y }

/-- `PayloadReset`: in the source its metadata declares `pos_x` and `pos_y`
with `length=4` and no `signed` flag, so both coordinates are marshalled as
unsigned u32 — unlike `PayloadStatus`, which passes `signed=True` for the
same coordinate fields. -/
structure PayloadReset where
  pos_x : Int := 0
  pos_y : Int := 0
deriving DecidableEq, Repr

def PayloadReset.encode (p : PayloadReset) : Option (List Nat) := do
  let x ← encodeUnsignedLE 4 p.pos_x
  let y ← encodeUnsignedLE 4 p.pos_y
  pure (x ++ y)

def PayloadReset.decode (bs : List Nat) : Option PayloadReset := do
  let (x, r1) ← readBytes 4 bs
  let (y, _) ← readBytes 4 r1
  pure { pos_x := decodeUnsignedLE x, pos_y := decodeUnsignedLE y }

/-- `PayloadOTAStart`: `fw_length` (u32) then `fw_chunk_count` (u32).
The metadata entries are paired with the dataclass fields positionally, so
the misspelled metadata name `fw_chunk_counts` plays no role. -/
structure PayloadOTAStart where
  fw_length : Int := 0
  fw_chunk_count : Int := 0
deriving DecidableEq, Repr

def PayloadOTAStart.encode (p : PayloadOTAStart) : Option (List Nat) := do
  let l ← encodeUnsignedLE 4 p.fw_length
  let c ← encodeUnsignedLE 4 p.fw_chunk_count
  pure (l ++ c)

def PayloadOTAStart.decode (bs : List Nat) : Option PayloadOTAStart := do
  let (l, r1) ← readBytes 4 bs
  let (c, _) ← readBytes 4 r1
  pure { fw_length := decodeUnsignedLE l, fw_chunk_count := decodeUnsignedLE c }

/-- `PayloadOTAChunk`: `index` (u32), `count` (u8), `sha` (8 raw bytes),
`chunk` (variable, `count` bytes). -/
structure PayloadOTAChunk where
  index : Int := 0
  count : Int := 0
  sha : List Nat := []
  chunk : List Nat := []
deriving DecidableEq, Repr

def PayloadOTAChunk.encode (p : PayloadOTAChunk) : Option (List Nat) := do
  let i ← encodeUnsignedLE 4 p.index
  let c ← encodeUnsignedLE 1 p.count
  pure (i ++ c ++ p.sha ++ p.chunk)

def PayloadOTAChunk.decode (bs : List Nat) : Option PayloadOTAChunk := do
  let (ib, r1) ← readBytes 4 bs
  let (cb, r2) ← readBytes 1 r1
  let count := fromLEBytes cb
  let (sha, r3) ← readBytes 8 r2
  let (chunk, _) ← readBytes count r3
  pure { index := decodeUnsignedLE ib, count := (count : Int), sha := sha, chunk := chunk }

/-- `PayloadOTAChunkAck`: `index` (u32). -/
structure PayloadOTAChunkAck where
  index : Int := 0
deriving DecidableEq, Repr

def PayloadOTAChunkAck.encode (p : PayloadOTAChunkAck) : Option (List Nat) :=
  encodeUnsignedLE 4 p.index

def PayloadOTAChunkAck.decode (bs : List Nat) : Option PayloadOTAChunkAck := do
  let (ib, _) ← readBytes 4 bs
  pure { index := decodeUnsignedLE ib }

/-- `PayloadEvent`: `timestamp` (u32), `count` (u8), `data` (variable,
`count` bytes). -/
structure PayloadEvent where
  timestamp : Int := 0
  count : Int := 0
  data : List Nat := []
deriving DecidableEq, Repr

def PayloadEvent.encode (p : PayloadEvent) : Option (List Nat) := do
  let t ← encodeUnsignedLE 4 p.timestamp
  let c ← encodeUnsignedLE 1 p.count
  pure (t ++ c ++ p.data)

def PayloadEvent.decode (bs : List Nat) : Option PayloadEvent := do
  let (tb, r1) ← readBytes 4 bs
  let (cb, r2) ← readBytes 1 r1
  let count := fromLEBytes cb
  let (data, _) ← readBytes count r2
  pure { timestamp := decodeUnsignedLE tb, count := (count : Int), data := data }

/-- `PayloadMessage`: `count` (u8), `message` (variable, `count` bytes). -/
structure PayloadMessage where
  count : Int := 0
  message : List Nat := []
deriving DecidableEq, Repr

def PayloadMessage.encode (p : PayloadMessage) : Option (List Nat) := do
  let c ← encodeUnsignedLE 1 p.count
  pure (c ++ p.message)

def PayloadMessage.decode (bs : List Nat) : Option PayloadMessage := do
  let (cb, r1) ← readBytes 1 bs
  let count := fromLEBytes cb
  let (msg, _) ← readBytes count r1
  pure { count := (count : Int), message := msg }

/-! ## Codec helper lemmas -/

theorem pow256_eq (n : Nat) : (256 : Nat) ^ n = 2 ^ (8 * n) := by
  rw [show (256 : Nat) = 2 ^ 8 from rfl, ← pow_mul]

theorem readBytes_append (l₁ l₂ : List Nat) :
    readBytes l₁.length (l₁ ++ l₂) = some (l₁, l₂) := by
  simp [readBytes]

theorem readBytes_append_of_length (n : Nat) (l₁ l₂ : List Nat) (h : l₁.length = n) :
    readBytes n (l₁ ++ l₂) = some (l₁, l₂) := by
  subst h; exact readBytes_append l₁ l₂

theorem readBytes_all (l : List Nat) : readBytes l.length l = some (l, []) := by
  simp [readBytes]

theorem encodeUnsignedLE_eq_some (len : Nat) (v : Int)
    (h0 : 0 ≤ v) (hlt : v < (2 : Int) ^ (8 * len)) :
    encodeUnsignedLE len v = some (toLEBytes len v.toNat) := by
  unfold encodeUnsignedLE
  rw [if_pos ⟨h0, hlt⟩]

theorem toNat_lt_pow256 (len : Nat) (v : Int)
    (hlt : v < (2 : Int) ^ (8 * len)) : v.toNat < 256 ^ len := by
  rw [pow256_eq]
  by_cases h0 : 0 ≤ v
  · have : ((v.toNat : Int)) < ((2 ^ (8 * len) : Nat) : Int) := by
      rw [Int.toNat_of_nonneg h0]; push_cast; exact hlt
    exact_mod_cast this
  · have : v.toNat = 0 := Int.toNat_of_nonpos (le_of_not_le h0)
    rw [this]; positivity

theorem decodeUnsignedLE_toLEBytes (len : Nat) (v : Int)
    (h0 : 0 ≤ v) (hlt : v < (2 : Int) ^ (8 * len)) :
    decodeUnsignedLE (toLEBytes len v.toNat) = v := by
  unfold decodeUnsignedLE
  rw [fromLEBytes_toLEBytes_of_lt len v.toNat (toNat_lt_pow256 len v hlt)]
  exact Int.toNat_of_nonneg h0

/-! ## Claim C1: OTA_CHUNK round trip -/

/-- C1: for every valid OTA_CHUNK payload (index a u32, count equal to the
chunk length and at most 255, sha exactly 8 bytes), decoding the encoding
returns the same payload. -/
theorem ota_chunk_decode_append (I C sha chunk : List Nat)
    (hI : I.length = 4) (hC : C.length = 1) (hsha : sha.length = 8)
    (hcnt : fromLEBytes C = chunk.length) :
    PayloadOTAChunk.decode (I ++ (C ++ (sha ++ chunk))) =
      some { index := decodeUnsignedLE I, count := (chunk.length : Int),
             sha := sha, chunk := chunk } := by
  simp [PayloadOTAChunk.decode, readBytes_append_of_length 4 I _ hI,
    readBytes_append_of_length 1 C _ hC, readBytes_append_of_length 8 sha _ hsha,
    hcnt, readBytes_all]

theorem ota_chunk_roundtrip (p : PayloadOTAChunk)
    (h0 : 0 ≤ p.index) (h32 : p.index < 2 ^ 32)
    (hcount : p.count = p.chunk.length)
    (hlen : p.chunk.length ≤ 255)
    (hsha : p.sha.length = 8) :
    p.encode.bind PayloadOTAChunk.decode = some p := by
  obtain ⟨idx, cnt, sha, chunk⟩ := p
  simp only at h0 h32 hcount hlen hsha
  subst hcount
  have h32' : idx < (2 : Int) ^ (8 * 4) := by norm_num at h32 ⊢; exact h32
  have hc0 : (0 : Int) ≤ (chunk.length : Int) := by positivity
  have hc256 : (chunk.length : Int) < (2 : Int) ^ (8 * 1) := by
    push_cast; norm_num; omega
  have hIdx := encodeUnsignedLE_eq_some 4 idx h0 h32'
  have hCnt := encodeUnsignedLE_eq_some 1 (chunk.length : Int) hc0 hc256
  have hcntNat : ((chunk.length : Int)).toNat = chunk.length := Int.toNat_natCast chunk.length
  have hfromCnt : fromLEBytes (toLEBytes 1 ((chunk.length : Int)).toNat) = chunk.length := by
    rw [fromLEBytes_toLEBytes_of_lt 1 _ (toNat_lt_pow256 1 _ hc256), hcntNat]
  have henc : PayloadOTAChunk.encode ⟨idx, (chunk.length : Int), sha, chunk⟩ =
      some (toLEBytes 4 idx.toNat ++
        (toLEBytes 1 ((chunk.length : Int)).toNat ++ (sha ++ chunk))) := by
    simp [PayloadOTAChunk.encode, hIdx, hCnt]
  rw [henc, Option.some_bind,
    ota_chunk_decode_append _ _ _ _ (toLEBytes_length 4 idx.toNat)
      (toLEBytes_length 1 _) hsha hfromCnt,
    decodeUnsignedLE_toLEBytes 4 idx h0 h32']

/-- C1 witness: a concrete valid chunk payload round-trips. -/
theorem ota_chunk_roundtrip_witness :
    (PayloadOTAChunk.encode ⟨70000, 3, [1, 2, 3, 4, 5, 6, 7, 8], [9, 10, 11]⟩).bind
      PayloadOTAChunk.decode = some ⟨70000, 3, [1, 2, 3, 4, 5, 6, 7, 8], [9, 10, 11]⟩ :=
  ota_chunk_roundtrip ⟨70000, 3, [1, 2, 3, 4, 5, 6, 7, 8], [9, 10, 11]⟩
    (by decide) (by decide) (by decide) (by decide) (by decide)

/-! ## Claim C3: OTA_START encoding -/

/-- C3: encoding an OTA_START payload yields the little-endian u32
`fw_length` field followed by the little-endian u32 `fw_chunk_count` field,
and decoding the encoding restores both values. -/
theorem ota_start_roundtrip (p : PayloadOTAStart)
    (hl0 : 0 ≤ p.fw_length) (hl : p.fw_length < 2 ^ 32)
    (hc0 : 0 ≤ p.fw_chunk_count) (hc : p.fw_chunk_count < 2 ^ 32) :
    p.encode = some (toLEBytes 4 p.fw_length.toNat ++ toLEBytes 4 p.fw_chunk_count.toNat) ∧
    p.encode.bind PayloadOTAStart.decode = some p := by
  obtain ⟨l, c⟩ := p
  simp only at hl0 hl hc0 hc
  have hl' : l < (2 : Int) ^ (8 * 4) := by norm_num at hl ⊢; exact hl
  have hc' : c < (2 : Int) ^ (8 * 4) := by norm_num at hc ⊢; exact hc
  have hL := encodeUnsignedLE_eq_some 4 l hl0 hl'
  have hC := encodeUnsignedLE_eq_some 4 c hc0 hc'
  have henc : PayloadOTAStart.encode ⟨l, c⟩ =
      some (toLEBytes 4 l.toNat ++ toLEBytes 4 c.toNat) := by
    simp [PayloadOTAStart.encode, hL, hC]
  refine ⟨henc, ?_⟩
  rw [henc, Option.some_bind]
  have hr1 : readBytes 4 (toLEBytes 4 l.toNat ++ toLEBytes 4 c.toNat) =
      some (toLEBytes 4 l.toNat, toLEBytes 4 c.toNat) :=
    readBytes_append_of_length 4 _ _ (toLEBytes_length 4 l.toNat)
  have hr2 : readBytes 4 (toLEBytes 4 c.toNat) = some (toLEBytes 4 c.toNat, []) := by
    have := readBytes_all (toLEBytes 4 c.toNat)
    rwa [toLEBytes_length 4 c.toNat] at this
  simp [PayloadOTAStart.decode, hr1, hr2,
    decodeUnsignedLE_toLEBytes 4 l hl0 hl', decodeUnsignedLE_toLEBytes 4 c hc0 hc']

/-- C3 witness: a concrete OTA_START payload encodes to its two LE u32
fields and round-trips. -/
theorem ota_start_roundtrip_witness :
    PayloadOTAStart.encode ⟨66770, 522⟩ =
      some (toLEBytes 4 66770 ++ toLEBytes 4 522) ∧
    (PayloadOTAStart.encode ⟨66770, 522⟩).bind PayloadOTAStart.decode =
      some ⟨66770, 522⟩ :=
  ota_start_roundtrip ⟨66770, 522⟩ (by decide) (by decide) (by decide) (by decide)

/-! ## Claim C2: RESET coordinate signedness

`PayloadReset`'s metadata omits `signed=True` (unlike `PayloadStatus`,
which declares the same coordinate fields signed), so the reset
coordinates are marshalled as unsigned u32: a negative coordinate cannot be
encoded at all. -/

/-- C2 (failing input): encoding a RESET payload with `pos_x = -1` fails —
the unsigned u32 marshaller rejects negative values, so RESET coordinates
do not round-trip on the signed 32-bit range as the spec's `i32` layout
requires. -/
theorem reset_negative_not_encodable : PayloadReset.encode ⟨-1, 0⟩ = none := by
  simp [PayloadReset.encode, encodeUnsignedLE]

/-! ## Claim C10: default values of the variable-length bytes fields

The three variable-length payload dataclasses declare their bytes fields
with `dataclasses.field(default_factory=lambda: bytearray)`.  The lambda
body is the bare name `bytearray`, so the factory returns the `bytearray`
class object itself, not an empty byte sequence. -/

/-- A Python value produced by a default factory: either an actual byte
string or the built-in `bytearray` class object itself. -/
inductive PyValue where
  | bytes (data : List Nat)
  | bytearrayClass
deriving DecidableEq, Repr

/-- The body of a `default_factory` lambda. -/
inductive PyFactoryBody where
  | bytearrayName
  | bytearrayCall
deriving DecidableEq, Repr

/-- Python evaluation of a factory body: the bare name `bytearray`
evaluates to the class object; the call `bytearray()` evaluates to an empty
byte sequence. -/
def evalFactory : PyFactoryBody → PyValue
  | .bytearrayName => .bytearrayClass
  | .bytearrayCall => .bytes []

/-- From `protocol.py`: `sha: bytes = dataclasses.field(default_factory=lambda: bytearray)` —
the lambda body is the bare name. -/
def PayloadOTAChunk.shaFactory : PyFactoryBody := .bytearrayName

/-- From `protocol.py`: `chunk: bytes = dataclasses.field(default_factory=lambda: bytearray)`. -/
def PayloadOTAChunk.chunkFactory : PyFactoryBody := .bytearrayName

/-- From `protocol.py`: `data: bytes = dataclasses.field(default_factory=lambda: bytearray)`. -/
def PayloadEvent.dataFactory : PyFactoryBody := .bytearrayName

/-- From `protocol.py`: `message: bytes = dataclasses.field(default_factory=lambda: bytearray)`. -/
def PayloadMessage.messageFactory : PyFactoryBody := .bytearrayName

/-- C10 (failing input): every default-constructed variable-length payload
gets the `bytearray` class object, not the empty byte sequence, in its
bytes-typed fields. -/
theorem default_bytes_fields_not_empty :
    evalFactory PayloadOTAChunk.shaFactory ≠ PyValue.bytes [] ∧
    evalFactory PayloadOTAChunk.chunkFactory ≠ PyValue.bytes [] ∧
    evalFactory PayloadEvent.dataFactory ≠ PyValue.bytes [] ∧
    evalFactory PayloadMessage.messageFactory ≠ PyValue.bytes [] := by
  decide

/-! ## Claim C9: adapter construction failure

`MarilibEdgeAdapter.__init__` and `MarilibCloudAdapter.__init__` wrap the
underlying library constructor in `try/except Exception`; on failure they
print the error and call `sys.exit(1)`.  The original exception is not
re-raised, so the caller never receives it. -/

/-- Outcome of adapter construction as observed by the caller: normal
return, an exception propagating out, or process termination with an exit
code. -/
inductive AdapterInitResult where
  | ok
  | raised (msg : String)
  | processExit (code : Nat)
deriving DecidableEq, Repr

/-- `MarilibEdgeAdapter.__init__`: the `MarilibEdge(...)` construction
outcome is the argument; `except Exception` prints and calls
`sys.exit(1)`. -/
def marilibEdgeAdapterInit (ctor : Except String Unit) : AdapterInitResult :=
  match ctor with
  | .ok _ => .ok
  | .error _ => .processExit 1

/-- `MarilibCloudAdapter.__init__`: identical try/except structure around
`MarilibCloud(...)`. -/
def marilibCloudAdapterInit (ctor : Except String Unit) : AdapterInitResult :=
  match ctor with
  | .ok _ => .ok
  | .error _ => .processExit 1

/-- C9 counterexample: when the underlying constructor raises, the adapter
does not surface the error to the caller — it terminates the process with
exit code 1 instead. -/
theorem adapter_init_failure_not_surfaced :
    marilibEdgeAdapterInit (Except.error "init failed") ≠
      AdapterInitResult.raised "init failed" ∧
    marilibEdgeAdapterInit (Except.error "init failed") =
      AdapterInitResult.processExit 1 := by
  constructor
  · intro h
    exact absurd h (by simp [marilibEdgeAdapterInit])
  · rfl

/-- C9 amended: on a construction failure both adapters print the error and
terminate the process with exit code 1 (no retry, no recovery, no
propagation of the original exception). -/
theorem adapter_init_failure_exits :
    (∀ e, marilibEdgeAdapterInit (Except.error e) = AdapterInitResult.processExit 1) ∧
    (∀ e, marilibCloudAdapterInit (Except.error e) = AdapterInitResult.processExit 1) :=
  ⟨fun _ => rfl, fun _ => rfl⟩

/-! ## Claim C8: inbound frame parse failures are dropped -/

/-- A payload parsed by one of the payload classes registered in
`protocol.py`. -/
inductive ParsedPayload where
  | status (p : PayloadStatus)
  | start
  | stop
  | reset (p : PayloadReset)
  | otaStart (p : PayloadOTAStart)
  | otaChunk (p : PayloadOTAChunk)
  | otaStartAck
  | otaChunkAck (p : PayloadOTAChunkAck)
  | event (p : PayloadEvent)
  | message (p : PayloadMessage)
  | metricsProbe (raw : List Nat)
deriving DecidableEq, Repr

/-- The parser dispatch built by the `register_parser` calls at the bottom
of `protocol.py`.  `metricsCode` is marilib's `METRICS_PROBE` code (an
external constant, kept abstract here); it is registered last, so it is
checked first.  `MetricsProbePayload` is external to the repository and is
modelled as accepting its raw bytes.  `SWARMIT_EVENT_GPIO = 0x88` has no
`register_parser` call, so it has no parser.  The payload classes with
empty metadata (`PayloadStart`, `PayloadStop`, `PayloadOTAStartAck`) decode
unconditionally. -/
def parsePayload (metricsCode : Nat) (t : Nat) (bs : List Nat) : Option ParsedPayload :=
  if t = metricsCode then some (.metricsProbe bs)
  else if t = 0x80 then (PayloadStatus.decode bs).map .status
  else if t = 0x81 then some .start
  else if t = 0x82 then some .stop
  else if t = 0x83 then (PayloadReset.decode bs).map .reset
  else if t = 0x84 then (PayloadOTAStart.decode bs).map .otaStart
  else if t = 0x85 then (PayloadOTAChunk.decode bs).map .otaChunk
  else if t = 0x86 then some .otaStartAck
  else if t = 0x87 then (PayloadOTAChunkAck.decode bs).map .otaChunkAck
  else if t = 0x89 then (PayloadEvent.decode bs).map .event
  else if t = 0xA0 then (PayloadMessage.decode bs).map .message
  else none

/-- `Packet.from_bytes`: the payload bytes start with the one-byte
PayloadType, the registered parser for that type decodes the rest; an
empty buffer or an unregistered type fails. -/
def packetFromBytes (metricsCode : Nat) (raw : List Nat) : Option (Nat × ParsedPayload) :=
  match raw with
  | [] => none
  | t :: rest => (parsePayload metricsCode t rest).map (fun p => (t, p))

/-- Events delivered to `MarilibEdgeAdapter.on_event`. -/
inductive EdgeEventKind where
  | nodeJoined | nodeLeft | nodeData
deriving DecidableEq, Repr

/-- `MarilibEdgeAdapter.on_event` / `MarilibCloudAdapter.on_event`
(`adapter.py`): a NODE_DATA frame is parsed with `Packet.from_bytes`; a
parse error is caught (optionally printed) and the handler returns; if the
callback attribute is not yet set the handler also returns.  The result is
the list of `on_frame_received` invocations the handler performs.  The
device registry lives behind that callback, so an empty invocation list
means the registry is not mutated. -/
def onEvent (metricsCode : Nat) (hasCallback : Bool) (ev : EdgeEventKind)
    (payload : List Nat) : List (Nat × ParsedPayload) :=
  match ev with
  | .nodeData =>
      match packetFromBytes metricsCode payload with
      | none => []
      | some pkt => if hasCallback then [pkt] else []
  | _ => []

/-- C8: a NODE_DATA event whose payload fails to parse — in particular any
payload whose leading byte is the unregistered `0x88` (EVENT_GPIO) — makes
the handler return without invoking `on_frame_received`, so the frame is
dropped and nothing downstream (the registry) is touched. -/
theorem node_data_parse_failure_dropped :
    (∀ metricsCode hasCallback payload,
        packetFromBytes metricsCode payload = none →
        onEvent metricsCode hasCallback EdgeEventKind.nodeData payload = []) ∧
    (∀ metricsCode (rest : List Nat), metricsCode ≠ 0x88 →
        packetFromBytes metricsCode (0x88 :: rest) = none) := by
  constructor
  · intro metricsCode hasCallback payload h
    simp [onEvent, h]
  · intro metricsCode rest hmc
    have h1 : ¬(0x88 = metricsCode) := fun h => hmc h.symm
    simp [packetFromBytes, parsePayload, h1]

/-- C8 witness: a concrete EVENT_GPIO frame (type byte `0x88`) is dropped:
no callback invocation happens. -/
theorem node_data_parse_failure_dropped_witness :
    onEvent 1 true EdgeEventKind.nodeData [0x88, 0, 1] = [] :=
  node_data_parse_failure_dropped.1 1 true [0x88, 0, 1]
    (node_data_parse_failure_dropped.2 1 [0, 1] (by decide))

/-! ## Claim C7: CLI reset precondition -/

/-- `ResetLocation` as constructed by `cli/main.py` and the tests: one pair
of coordinates per device. -/
structure ResetLocation where
  pos_x : Int := 0
  pos_y : Int := 0
deriving DecidableEq, Repr

/-- An observable send: one broadcast frame or one unicast frame to an
address. -/
inductive Send where
  | broadcast
  | unicast (addr : Nat)
deriving DecidableEq, Repr

/-- Python's `sorted` on a list of addresses (stable insertion sort; only
the ordering-normalisation matters here). -/
def insertSorted (a : Nat) : List Nat → List Nat
  | [] => [a]
  | b :: bs => if a ≤ b then a :: b :: bs else b :: insertSorted a bs

def pySorted (l : List Nat) : List Nat := l.foldr insertSorted []

theorem mem_insertSorted (a x : Nat) (l : List Nat) :
    a ∈ insertSorted x l ↔ a = x ∨ a ∈ l := by
  induction l with
  | nil => simp [insertSorted]
  | cons b bs ih =>
    by_cases h : x ≤ b
    · simp [insertSorted, h]
    · simp [insertSorted, h, ih]
      tauto

theorem mem_pySorted (a : Nat) (l : List Nat) : a ∈ pySorted l ↔ a ∈ l := by
  induction l with
  | nil => simp [pySorted]
  | cons b bs ih =>
    show a ∈ insertSorted b (pySorted bs) ↔ _
    rw [mem_insertSorted]
    simp [ih]

theorem pySorted_eq_nil_iff (l : List Nat) : pySorted l = [] ↔ l = [] := by
  cases l with
  | nil => simp [pySorted]
  | cons b bs =>
    constructor
    · intro h
      have : b ∈ pySorted (b :: bs) := (mem_pySorted b (b :: bs)).mpr (by simp)
      rw [h] at this
      cases this
    · intro h; cases h

/-- Outcomes of the CLI `reset` command. -/
inductive ResetCliOutcome where
  | noDeviceSelected
  | locationsMismatch
  | noDeviceReady
  | resetSent (locations : List (Nat × ResetLocation))
deriving DecidableEq, Repr

/-- The `reset` command of `swarmit/cli/main.py`: bail out when no device
is configured; then parse `locations`; then compare
`sorted(locations.keys()) != sorted(devices)` (guarded by the truthiness of
`sorted(devices)`); then require a ready device; only then call
`controller.reset(locations)`. -/
def resetCommand (devices : List Nat) (locations : List (Nat × ResetLocation))
    (ready : List Nat) : ResetCliOutcome :=
  if devices = [] then .noDeviceSelected
  else if pySorted devices ≠ [] ∧ pySorted (locations.map Prod.fst) ≠ pySorted devices then
    .locationsMismatch
  else if ready = [] then .noDeviceReady
  else .resetSent locations

/-- Frames sent by each CLI reset outcome: only the `resetSent` branch
reaches `controller.reset`, which unicasts each device its own
coordinates. -/
def ResetCliOutcome.sends : ResetCliOutcome → List Send
  | .resetSent locations => locations.map (fun l => Send.unicast l.1)
  | _ => []

/-- C7: whenever the key set of `locations` differs from the configured
device subset, the CLI reset command stops at a precondition failure
(`InvalidArgument` kind: "No device selected" or "Selected devices and
reset locations do not match") and sends no frame to any device. -/
theorem reset_mismatch_rejected (devices : List Nat)
    (locations : List (Nat × ResetLocation)) (ready : List Nat)
    (h : (locations.map Prod.fst).toFinset ≠ devices.toFinset) :
    (resetCommand devices locations ready = ResetCliOutcome.noDeviceSelected ∨
      resetCommand devices locations ready = ResetCliOutcome.locationsMismatch) ∧
    (resetCommand devices locations ready).sends = [] := by
  by_cases hd : devices = []
  · subst hd
    simp [resetCommand, ResetCliOutcome.sends]
  · have hsorted : pySorted (locations.map Prod.fst) ≠ pySorted devices := by
      intro he
      apply h
      ext a
      simp only [List.mem_toFinset]
      rw [← mem_pySorted a (locations.map Prod.fst), ← mem_pySorted a devices, he]
    have hne : pySorted devices ≠ [] := fun he => hd ((pySorted_eq_nil_iff devices).mp he)
    simp [resetCommand, hd, hne, hsorted, ResetCliOutcome.sends]

/-- C7 witness: configured devices {1, 2}, `reset({3: (0, 0)})` with device
1 ready is rejected with the mismatch message and sends nothing. -/
theorem reset_mismatch_rejected_witness :
    (resetCommand [1, 2] [(3, ⟨0, 0⟩)] [1] = ResetCliOutcome.noDeviceSelected ∨
      resetCommand [1, 2] [(3, ⟨0, 0⟩)] [1] = ResetCliOutcome.locationsMismatch) ∧
    (resetCommand [1, 2] [(3, ⟨0, 0⟩)] [1]).sends = [] :=
  reset_mismatch_rejected [1, 2] [(3, ⟨0, 0⟩)] [1] (by decide)

/-! ## Claim C4: broadcast versus unicast dispatch

Modelled from the spec: `swarmit/testbed/controller.py`, which implements
the command dispatcher, is not under `src/` (only its tests and callers
are).  Per spec §4.4 step 1 and §8, a start/stop command filters an
explicit device list to the addresses matching the precondition status (or
takes all of them when the list is omitted) and broadcasts exactly when the
target set equals the full eligible set; per §4.4, `reset` is always
per-device unicast because every device receives its own coordinates. -/

/-- Targets of a start/stop dispatch (spec §4.4 step 1). -/
def commandTargets (devices : Option (List Nat)) (eligible : List Nat) : List Nat :=
  match devices with
  | some ds => ds.filter (fun d => decide (d ∈ eligible))
  | none => eligible

/-- Frames sent by a start/stop dispatch: one broadcast when the target set
equals the full eligible set, otherwise one unicast per target. -/
def commandSends (devices : Option (List Nat)) (eligible : List Nat) : List Send :=
  if (commandTargets devices eligible).toFinset = eligible.toFinset then [Send.broadcast]
  else (commandTargets devices eligible).map Send.unicast

/-- Frames sent by a reset dispatch (spec §4.4): always one unicast per
device, carrying that device's coordinates. -/
def resetSends (locations : List (Nat × ResetLocation)) : List Send :=
  locations.map (fun l => Send.unicast l.1)

/-- C4 counterexample: a reset dispatch whose target set equals the full
eligible set ({1} = {1}) still sends no broadcast, refuting the claimed
"broadcast iff target set equals eligible set" for reset dispatches. -/
theorem reset_broadcast_iff_counterexample :
    (([((1 : Nat), (⟨0, 0⟩ : ResetLocation))].map Prod.fst).toFinset =
      ([1] : List Nat).toFinset) ∧
    Send.broadcast ∉ resetSends [(1, ⟨0, 0⟩)] := by
  constructor
  · rfl
  · intro h
    simp [resetSends] at h

/-- C4 amended: for start/stop dispatches a broadcast is sent iff the
computed target set equals the full eligible set, and otherwise every
target gets a unicast and no broadcast is sent; reset dispatches always
unicast every targeted device and never broadcast. -/
theorem command_broadcast_iff_amended :
    (∀ devices eligible,
      (Send.broadcast ∈ commandSends devices eligible ↔
        (commandTargets devices eligible).toFinset = eligible.toFinset) ∧
      ((commandTargets devices eligible).toFinset ≠ eligible.toFinset →
        Send.broadcast ∉ commandSends devices eligible ∧
        ∀ a ∈ commandTargets devices eligible,
          Send.unicast a ∈ commandSends devices eligible)) ∧
    (∀ locations : List (Nat × ResetLocation),
      Send.broadcast ∉ resetSends locations ∧
      ∀ l ∈ locations, Send.unicast l.1 ∈ resetSends locations) := by
  constructor
  · intro devices eligible
    by_cases hset : (commandTargets devices eligible).toFinset = eligible.toFinset
    · constructor
      · simp [commandSends, hset]
      · intro hne; exact absurd hset hne
    · constructor
      · simp [commandSends, hset]
      · intro _
        constructor
        · simp [commandSends, hset]
        · intro a ha
          simp only [commandSends, if_neg hset]
          exact List.mem_map_of_mem Send.unicast ha
  · intro locations
    constructor
    · intro h
      simp [resetSends] at h
    · intro l hl
      exact List.mem_map_of_mem (fun l => Send.unicast l.1) hl

/-- C4 witness: with both eligible devices targeted (no subset) a single
broadcast goes out; with an explicit proper subset the targeted address is
unicast. -/
theorem command_broadcast_iff_amended_witness :
    Send.broadcast ∈ commandSends none [1, 2] ∧
    Send.unicast 1 ∈ commandSends (some [1]) [1, 2] :=
  ⟨(command_broadcast_iff_amended.1 none [1, 2]).1.mpr rfl,
    ((command_broadcast_iff_amended.1 (some [1]) [1, 2]).2 (by decide)).2 1 (by decide)⟩

/-! ## Claims C5 and C6: the OTA transfer engine

Modelled from the spec: `swarmit/testbed/controller.py`, which implements
the OTA engine, is not under `src/` (only its tests and callers are).  The
transfer loop follows spec §4.5.3/§4.5.4: chunks are streamed in order
`0 … chunk_count−1`; per chunk a pending set (devices with
`acked_index < i` that have not failed) is drained by broadcast attempts
(`fuel` = OTA_MAX_RETRIES + 1 of them); an OTA_CHUNK_ACK carrying the
current index advances its sender's `acked_index` (reaching the final
chunk sets `success`); any other index is ignored; devices still pending
when the budget is exhausted are marked failed and excluded from further
chunks.  A schedule assigns to every chunk index the list of ACK windows,
each window being the `(source, acked index)` pairs received in it. -/

/-- Per-device tracker of an OTA session (spec `ChunkTracker`). -/
structure ChunkTracker where
  ackedIndex : Int
  success : Bool
  failed : Bool
deriving DecidableEq, Repr

def ChunkTracker.init : ChunkTracker := ⟨-1, false, false⟩

/-- Per-address tracker state of a session. -/
abbrev OtaState := Nat → ChunkTracker

def initOta : OtaState := fun _ => ChunkTracker.init

/-- Processing one OTA_CHUNK_ACK `(source, index)` during the transfer of
chunk `i` (spec §4.5.3 steps 3c/3d): an ACK with the current index removes
its sender from the pending set by advancing its `ackedIndex` to `i`
(reaching the final chunk sets `success`); an ACK with any other index is
ignored; failed or already-acked senders are left alone. -/
def applyAck (chunkCount i : Nat) (st : OtaState) (ack : Nat × Nat) : OtaState :=
  if ack.2 = i ∧ (st ack.1).failed = false ∧ (st ack.1).ackedIndex < (i : Int) then
    fun d => if d = ack.1 then ⟨(i : Int), i + 1 == chunkCount, false⟩ else st d
  else st

/-- Fold one ACK wait window into the tracker state. -/
def processAcks (chunkCount i : Nat) (st : OtaState) (acks : List (Nat × Nat)) : OtaState :=
  acks.foldl (applyAck chunkCount i) st

/-- A device is pending for chunk `i` when it has not failed and has not
acknowledged chunk `i` yet. -/
def isPending (i : Nat) (t : ChunkTracker) : Bool :=
  decide (t.failed = false ∧ t.ackedIndex < (i : Int))

def pendingDevices (devs : List Nat) (i : Nat) (st : OtaState) : List Nat :=
  devs.filter (fun d => isPending i (st d))

/-- Spec §4.5.3 step 4: when the retry budget is exhausted with a non-empty
pending set, every pending device is marked failed (its `ackedIndex` and
`success` are untouched). -/
def markFailed (devs : List Nat) (i : Nat) (st : OtaState) : OtaState :=
  fun d =>
    if d ∈ devs ∧ isPending i (st d) = true then
      ⟨(st d).ackedIndex, (st d).success, true⟩
    else st d

/-- The successive tracker states while streaming chunk `i`: one state per
ACK window processed, plus a final marking state when the budget is
exhausted with devices still pending. -/
def chunkTrace (chunkCount i : Nat) (devs : List Nat) :
    Nat → List (List (Nat × Nat)) → OtaState → List OtaState
  | 0, _, st =>
      if pendingDevices devs i st = [] then [] else [markFailed devs i st]
  | fuel + 1, atts, st =>
      if pendingDevices devs i st = [] then []
      else
        let st1 := processAcks chunkCount i st (atts.headD [])
        st1 :: chunkTrace chunkCount i devs fuel atts.tail st1

/-- States produced while streaming the given list of chunk indices. -/
def transferTraceAux (chunkCount fuel : Nat) (devs : List Nat)
    (sched : Nat → List (List (Nat × Nat))) :
    List Nat → OtaState → List OtaState
  | [], _ => []
  | i :: rest, st =>
      let tr := chunkTrace chunkCount i devs fuel (sched i) st
      tr ++ transferTraceAux chunkCount fuel devs sched rest (tr.getLastD st)

/-- All tracker states of a transfer session, starting from the initial
state (every device at `ackedIndex = −1`), over chunks
`0 … chunkCount−1`. -/
def transferTrace (chunkCount fuel : Nat) (devs : List Nat)
    (sched : Nat → List (List (Nat × Nat))) : List OtaState :=
  initOta :: transferTraceAux chunkCount fuel devs sched (List.range chunkCount) initOta

/-- Final per-device result of the transfer. -/
def transferFinal (chunkCount fuel : Nat) (devs : List Nat)
    (sched : Nat → List (List (Nat × Nat))) : OtaState :=
  (transferTrace chunkCount fuel devs sched).getLastD initOta

/-- The spec's per-device session invariant (§3, §8). -/
def trackerInv (chunkCount : Nat) (t : ChunkTracker) : Prop :=
  t.ackedIndex ≤ (chunkCount : Int) - 1 ∧
  (t.success = true → t.ackedIndex = (chunkCount : Int) - 1)

/-- Pointwise monotonicity of `ackedIndex` between two states. -/
def stateLE (s s' : OtaState) : Prop := ∀ d, (s d).ackedIndex ≤ (s' d).ackedIndex

def stateInv (chunkCount : Nat) (s : OtaState) : Prop := ∀ d, trackerInv chunkCount (s d)

theorem stateLE_refl (s : OtaState) : stateLE s s := fun _ => le_refl _

theorem stateLE_trans {s₁ s₂ s₃ : OtaState} (h₁ : stateLE s₁ s₂) (h₂ : stateLE s₂ s₃) :
    stateLE s₁ s₃ := fun d => le_trans (h₁ d) (h₂ d)

theorem applyAck_stateLE (chunkCount i : Nat) (st : OtaState) (ack : Nat × Nat) :
    stateLE st (applyAck chunkCount i st ack) := by
  intro d
  unfold applyAck
  split
  · rename_i h
    by_cases hd : d = ack.1
    · subst hd
      simp only [if_pos rfl]
      exact le_of_lt h.2.2
    · simp only [if_neg hd]
      exact le_refl _
  · exact le_refl _

theorem applyAck_inv (chunkCount i : Nat) (st : OtaState) (ack : Nat × Nat)
    (hi : i < chunkCount) (h : stateInv chunkCount st) :
    stateInv chunkCount (applyAck chunkCount i st ack) := by
  intro d
  have hd' := h d
  unfold applyAck
  split
  · show trackerInv chunkCount
      (if d = ack.1 then ⟨(i : Int), i + 1 == chunkCount, false⟩ else st d)
    by_cases hd : d = ack.1
    · rw [if_pos hd]
      refine ⟨?_, ?_⟩
      · show (i : Int) ≤ (chunkCount : Int) - 1
        omega
      · intro hs
        show (i : Int) = (chunkCount : Int) - 1
        have h2 : i + 1 = chunkCount := eq_of_beq hs
        omega
    · rw [if_neg hd]
      exact hd'
  · exact hd'

theorem processAcks_stateLE (chunkCount i : Nat) (acks : List (Nat × Nat)) (st : OtaState) :
    stateLE st (processAcks chunkCount i st acks) := by
  induction acks generalizing st with
  | nil => exact stateLE_refl st
  | cons a as ih =>
    exact stateLE_trans (applyAck_stateLE chunkCount i st a) (ih _)

theorem processAcks_inv (chunkCount i : Nat) (acks : List (Nat × Nat)) (st : OtaState)
    (hi : i < chunkCount) (h : stateInv chunkCount st) :
    stateInv chunkCount (processAcks chunkCount i st acks) := by
  induction acks generalizing st with
  | nil => exact h
  | cons a as ih =>
    exact ih _ (applyAck_inv chunkCount i st a hi h)

theorem markFailed_apply (devs : List Nat) (i : Nat) (st : OtaState) (d : Nat) :
    ((markFailed devs i st) d).ackedIndex = (st d).ackedIndex ∧
    ((markFailed devs i st) d).success = (st d).success := by
  unfold markFailed
  split <;> exact ⟨rfl, rfl⟩

theorem markFailed_stateLE (devs : List Nat) (i : Nat) (st : OtaState) :
    stateLE st (markFailed devs i st) := by
  intro d
  rw [(markFailed_apply devs i st d).1]

theorem markFailed_inv (chunkCount : Nat) (devs : List Nat) (i : Nat) (st : OtaState)
    (h : stateInv chunkCount st) : stateInv chunkCount (markFailed devs i st) := by
  intro d
  obtain ⟨h1, h2⟩ := markFailed_apply devs i st d
  exact ⟨h1 ▸ (h d).1, fun hs => h1 ▸ (h d).2 (h2 ▸ hs)⟩

theorem getLastD_cases {α : Type} (l : List α) (a : α) :
    l.getLastD a = a ∨ l.getLastD a ∈ l := by
  induction l generalizing a with
  | nil => exact Or.inl rfl
  | cons b bs ih =>
    rw [List.getLastD_cons]
    rcases ih b with h | h
    · right
      rw [h]
      exact List.mem_cons_self b bs
    · exact Or.inr (List.mem_cons_of_mem b h)

theorem getLastD_append {α : Type} (l l' : List α) (a : α) :
    (l ++ l').getLastD a = l'.getLastD (l.getLastD a) := by
  induction l generalizing a with
  | nil => rfl
  | cons b bs ih =>
    rw [List.cons_append, List.getLastD_cons, List.getLastD_cons, ih]

theorem chain_append_getLastD {α : Type} (R : α → α → Prop) (a : α) (l l' : List α)
    (h1 : List.Chain R a l) (h2 : List.Chain R (l.getLastD a) l') :
    List.Chain R a (l ++ l') := by
  induction l generalizing a with
  | nil => exact h2
  | cons b bs ih =>
    rw [List.getLastD_cons] at h2
    rcases List.chain_cons.mp h1 with ⟨hab, hb⟩
    exact List.chain_cons.mpr ⟨hab, ih b hb h2⟩

theorem chunkTrace_chain (chunkCount i : Nat) (devs : List Nat) (fuel : Nat)
    (atts : List (List (Nat × Nat))) (st : OtaState)
    (hi : i < chunkCount) (hinv : stateInv chunkCount st) :
    List.Chain stateLE st (chunkTrace chunkCount i devs fuel atts st) ∧
    ∀ s ∈ chunkTrace chunkCount i devs fuel atts st, stateInv chunkCount s := by
  induction fuel generalizing atts st with
  | zero =>
    unfold chunkTrace
    split
    · exact ⟨List.Chain.nil, by simp⟩
    · refine ⟨List.chain_cons.mpr ⟨markFailed_stateLE devs i st, List.Chain.nil⟩, ?_⟩
      intro s hs
      rw [List.mem_singleton] at hs
      exact hs ▸ markFailed_inv chunkCount devs i st hinv
  | succ fuel ih =>
    unfold chunkTrace
    split
    · exact ⟨List.Chain.nil, by simp⟩
    · have hle := processAcks_stateLE chunkCount i (atts.headD []) st
      have hinv1 := processAcks_inv chunkCount i (atts.headD []) st hi hinv
      obtain ⟨hc, hm⟩ := ih atts.tail _ hinv1
      refine ⟨List.chain_cons.mpr ⟨hle, hc⟩, ?_⟩
      intro s hs
      rcases List.mem_cons.mp hs with h | h
      · exact h ▸ hinv1
      · exact hm s h

theorem transferTraceAux_chain (chunkCount fuel : Nat) (devs : List Nat)
    (sched : Nat → List (List (Nat × Nat))) (chunks : List Nat) (st : OtaState)
    (hc : ∀ i ∈ chunks, i < chunkCount) (hinv : stateInv chunkCount st) :
    List.Chain stateLE st (transferTraceAux chunkCount fuel devs sched chunks st) ∧
    ∀ s ∈ transferTraceAux chunkCount fuel devs sched chunks st, stateInv chunkCount s := by
  induction chunks generalizing st with
  | nil => exact ⟨List.Chain.nil, by simp [transferTraceAux]⟩
  | cons i rest ih =>
    have hi : i < chunkCount := hc i (by simp)
    obtain ⟨hcc, hcm⟩ := chunkTrace_chain chunkCount i devs fuel (sched i) st hi hinv
    have hinv' : stateInv chunkCount
        ((chunkTrace chunkCount i devs fuel (sched i) st).getLastD st) := by
      rcases getLastD_cases (chunkTrace chunkCount i devs fuel (sched i) st) st with h | h
      · rw [h]
        exact hinv
      · exact hcm _ h
    obtain ⟨hrc, hrm⟩ := ih _ (fun j hj => hc j (List.mem_cons_of_mem i hj)) hinv'
    refine ⟨chain_append_getLastD stateLE st _ _ hcc hrc, ?_⟩
    intro s hs
    rcases List.mem_append.mp hs with h | h
    · exact hcm s h
    · exact hrm s h

theorem initOta_inv (chunkCount : Nat) : stateInv chunkCount initOta := by
  intro d
  refine ⟨?_, ?_⟩
  · show (-1 : Int) ≤ (chunkCount : Int) - 1
    omega
  · intro hs
    cases hs

/-- C5: across every step of a transfer, every tracked device's
`ackedIndex` never decreases, stays at most `chunkCount − 1`, and
`success = true` only once `ackedIndex = chunkCount − 1`. -/
theorem ota_tracker_invariants (chunkCount fuel : Nat) (devs : List Nat)
    (sched : Nat → List (List (Nat × Nat))) :
    List.Chain' stateLE (transferTrace chunkCount fuel devs sched) ∧
    ∀ s ∈ transferTrace chunkCount fuel devs sched, stateInv chunkCount s := by
  have hrange : ∀ i ∈ List.range chunkCount, i < chunkCount := by
    intro i hi
    exact List.mem_range.mp hi
  obtain ⟨hc, hm⟩ := transferTraceAux_chain chunkCount fuel devs sched
    (List.range chunkCount) initOta hrange (initOta_inv chunkCount)
  refine ⟨?_, ?_⟩
  · exact hc
  · intro s hs
    rcases List.mem_cons.mp hs with h | h
    · exact h ▸ initOta_inv chunkCount
    · exact hm s h

theorem applyAck_wrong_index (chunkCount i : Nat) (st : OtaState) (ack : Nat × Nat)
    (h : ack.2 ≠ i) : applyAck chunkCount i st ack = st := by
  unfold applyAck
  rw [if_neg]
  rintro ⟨h1, -⟩
  exact h h1

theorem applyAck_not_source (chunkCount i : Nat) (st : OtaState) (ack : Nat × Nat)
    (d : Nat) (h : ack.1 ≠ d) : (applyAck chunkCount i st ack) d = st d := by
  unfold applyAck
  split
  · show (if d = ack.1 then _ else st d) = st d
    rw [if_neg (fun hq => h hq.symm)]
  · rfl

theorem applyAck_failed_stable (chunkCount i : Nat) (st : OtaState) (ack : Nat × Nat)
    (d : Nat) (h : (st d).failed = true) : (applyAck chunkCount i st ack) d = st d := by
  by_cases hd : ack.1 = d
  · unfold applyAck
    split
    · rename_i hg
      rw [hd] at hg
      rw [h] at hg
      cases hg.2.1
    · rfl
  · exact applyAck_not_source chunkCount i st ack d hd

theorem processAcks_not_acked (chunkCount i : Nat) (acks : List (Nat × Nat))
    (st : OtaState) (d : Nat) (h : ∀ a ∈ acks, a.1 = d → a.2 ≠ i) :
    (processAcks chunkCount i st acks) d = st d := by
  induction acks generalizing st with
  | nil => rfl
  | cons a as ih =>
    show (processAcks chunkCount i (applyAck chunkCount i st a) as) d = st d
    by_cases hsrc : a.1 = d
    · rw [applyAck_wrong_index chunkCount i st a (h a (by simp) hsrc)]
      exact ih st (fun b hb => h b (List.mem_cons_of_mem a hb))
    · rw [ih (applyAck chunkCount i st a) (fun b hb => h b (List.mem_cons_of_mem a hb))]
      exact applyAck_not_source chunkCount i st a d hsrc

theorem processAcks_failed_stable (chunkCount i : Nat) (acks : List (Nat × Nat))
    (st : OtaState) (d : Nat) (h : (st d).failed = true) :
    (processAcks chunkCount i st acks) d = st d := by
  induction acks generalizing st with
  | nil => rfl
  | cons a as ih =>
    show (processAcks chunkCount i (applyAck chunkCount i st a) as) d = st d
    have ha := applyAck_failed_stable chunkCount i st a d h
    rw [ih (applyAck chunkCount i st a) (by rw [ha]; exact h), ha]

theorem markFailed_pending (devs : List Nat) (i : Nat) (st : OtaState) (d : Nat)
    (hd : d ∈ devs) (hp : isPending i (st d) = true) :
    (markFailed devs i st) d = ⟨(st d).ackedIndex, (st d).success, true⟩ := by
  unfold markFailed
  rw [if_pos ⟨hd, hp⟩]

theorem markFailed_failed_stable (devs : List Nat) (i : Nat) (st : OtaState) (d : Nat)
    (h : (st d).failed = true) : (markFailed devs i st) d = st d := by
  unfold markFailed
  rw [if_neg]
  rintro ⟨-, hp⟩
  simp [isPending, h] at hp

theorem chunkTrace_final_failed_stable (chunkCount i : Nat) (devs : List Nat)
    (fuel : Nat) (atts : List (List (Nat × Nat))) (st : OtaState) (d : Nat)
    (h : (st d).failed = true) :
    ((chunkTrace chunkCount i devs fuel atts st).getLastD st) d = st d := by
  induction fuel generalizing atts st with
  | zero =>
    unfold chunkTrace
    split
    · rfl
    · exact markFailed_failed_stable devs i st d h
  | succ fuel ih =>
    unfold chunkTrace
    split
    · rfl
    · rw [List.getLastD_cons]
      have hp := processAcks_failed_stable chunkCount i (atts.headD []) st d h
      rw [ih atts.tail _ (by rw [hp]; exact h), hp]

theorem tail_mem {α : Type} (l : List α) (a : α) (h : a ∈ l.tail) : a ∈ l := by
  cases l with
  | nil => cases h
  | cons b bs => exact List.mem_cons_of_mem b h

theorem isPending_true_of (i : Nat) (t : ChunkTracker) (hf : t.failed = false)
    (ha : t.ackedIndex < (i : Int)) : isPending i t = true :=
  decide_eq_true ⟨hf, ha⟩

theorem failed_true_of_not_pending (i : Nat) (t : ChunkTracker)
    (hp : ¬ isPending i t = true) (ha : t.ackedIndex < (i : Int)) : t.failed = true := by
  cases hb : t.failed
  · exact absurd (isPending_true_of i t hb ha) hp
  · rfl

theorem mem_pendingDevices (devs : List Nat) (i : Nat) (st : OtaState) (d : Nat)
    (hd : d ∈ devs) (hp : isPending i (st d) = true) :
    d ∈ pendingDevices devs i st := by
  unfold pendingDevices
  rw [List.mem_filter]
  exact ⟨hd, hp⟩

theorem chunkTrace_final_not_acked (chunkCount i : Nat) (devs : List Nat)
    (fuel : Nat) (atts : List (List (Nat × Nat))) (st : OtaState) (d : Nat)
    (hd : d ∈ devs)
    (hnever : ∀ att ∈ atts, ∀ ack ∈ att, ack.1 = d → ack.2 ≠ i) :
    (((chunkTrace chunkCount i devs fuel atts st).getLastD st) d).ackedIndex =
      (st d).ackedIndex ∧
    (((chunkTrace chunkCount i devs fuel atts st).getLastD st) d).success =
      (st d).success ∧
    ((st d).failed = true ∨ (st d).ackedIndex < (i : Int) →
      (((chunkTrace chunkCount i devs fuel atts st).getLastD st) d).failed = true) := by
  induction fuel generalizing atts st with
  | zero =>
    unfold chunkTrace
    split
    · rename_i hpend
      refine ⟨rfl, rfl, ?_⟩
      rintro (hf | ha)
      · exact hf
      · cases hb : (st d).failed with
        | true => exact hb
        | false =>
          exfalso
          have hmem := mem_pendingDevices devs i st d hd (isPending_true_of i _ hb ha)
          rw [hpend] at hmem
          cases hmem
    · obtain ⟨h1, h2⟩ := markFailed_apply devs i st d
      refine ⟨h1, h2, ?_⟩
      intro hpre
      by_cases hp : isPending i (st d) = true
      · show ((markFailed devs i st) d).failed = true
        rw [markFailed_pending devs i st d hd hp]
      · have hmf : (markFailed devs i st) d = st d := by
          unfold markFailed
          rw [if_neg (fun hc => hp hc.2)]
        show ((markFailed devs i st) d).failed = true
        rw [hmf]
        rcases hpre with hf | ha
        · exact hf
        · exact failed_true_of_not_pending i (st d) hp ha
  | succ fuel ih =>
    unfold chunkTrace
    split
    · rename_i hpend
      refine ⟨rfl, rfl, ?_⟩
      rintro (hf | ha)
      · exact hf
      · cases hb : (st d).failed with
        | true => exact hb
        | false =>
          exfalso
          have hmem := mem_pendingDevices devs i st d hd (isPending_true_of i _ hb ha)
          rw [hpend] at hmem
          cases hmem
    · rw [List.getLastD_cons]
      have hheads : ∀ ack ∈ atts.headD [], ack.1 = d → ack.2 ≠ i := by
        cases atts with
        | nil => intro ack hack; cases hack
        | cons a l => exact hnever a (by simp)
      have hst1 := processAcks_not_acked chunkCount i (atts.headD []) st d hheads
      have htail : ∀ att ∈ atts.tail, ∀ ack ∈ att, ack.1 = d → ack.2 ≠ i :=
        fun att hatt => hnever att (tail_mem atts att hatt)
      obtain ⟨i1, i2, i3⟩ := ih atts.tail (processAcks chunkCount i st (atts.headD [])) htail
      rw [hst1] at i1 i2 i3
      exact ⟨i1, i2, i3⟩

theorem transferTraceAux_final_failed_stable (chunkCount fuel : Nat) (devs : List Nat)
    (sched : Nat → List (List (Nat × Nat))) (chunks : List Nat) (st : OtaState) (d : Nat)
    (h : (st d).failed = true) :
    ((transferTraceAux chunkCount fuel devs sched chunks st).getLastD st) d = st d := by
  induction chunks generalizing st with
  | nil => rfl
  | cons i rest ih =>
    show (((chunkTrace chunkCount i devs fuel (sched i) st ++
        transferTraceAux chunkCount fuel devs sched rest
          ((chunkTrace chunkCount i devs fuel (sched i) st).getLastD st)).getLastD st)) d = st d
    rw [getLastD_append]
    have hst' := chunkTrace_final_failed_stable chunkCount i devs fuel (sched i) st d h
    rw [ih _ (by rw [hst']; exact h), hst']

/-- C6: an OTA_CHUNK_ACK whose index differs from the chunk being
transferred is ignored — the tracker state (hence the pending set and the
sender's `ackedIndex`) is unchanged — and a device whose every ACK carries
an out-of-range index (`≥ chunkCount`) ends the transfer, once the
per-chunk retry budget is exhausted, with `success = false` (it is marked
failed). -/
theorem ota_out_of_range_ack_ignored :
    (∀ chunkCount i (st : OtaState) (devs : List Nat) (a j : Nat), j ≠ i →
      applyAck chunkCount i st (a, j) = st ∧
      pendingDevices devs i (applyAck chunkCount i st (a, j)) = pendingDevices devs i st) ∧
    (∀ chunkCount fuel (devs : List Nat) (sched : Nat → List (List (Nat × Nat))) (d : Nat),
      0 < chunkCount → d ∈ devs →
      (∀ i, i < chunkCount → ∀ att ∈ sched i, ∀ ack ∈ att, ack.1 = d → chunkCount ≤ ack.2) →
      (transferFinal chunkCount fuel devs sched d).success = false ∧
      (transferFinal chunkCount fuel devs sched d).failed = true) := by
  constructor
  · intro chunkCount i st devs a j hj
    have he : applyAck chunkCount i st (a, j) = st :=
      applyAck_wrong_index chunkCount i st (a, j) hj
    exact ⟨he, by rw [he]⟩
  · intro chunkCount fuel devs sched d hcc hd hsched
    obtain ⟨n, rfl⟩ : ∃ n, chunkCount = n + 1 :=
      ⟨chunkCount - 1, by omega⟩
    have hnever0 : ∀ att ∈ sched 0, ∀ ack ∈ att, ack.1 = d → ack.2 ≠ 0 := by
      intro att hatt ack hack hsrc
      have := hsched 0 (by omega) att hatt ack hack hsrc
      omega
    obtain ⟨c1, c2, c3⟩ :=
      chunkTrace_final_not_acked (n + 1) 0 devs fuel (sched 0) initOta d hd hnever0
    have hfail1 : (((chunkTrace (n + 1) 0 devs fuel (sched 0) initOta).getLastD initOta) d).failed
        = true := by
      apply c3
      right
      show (-1 : Int) < (0 : Int)
      omega
    have hfin : transferFinal (n + 1) fuel devs sched d =
        ((chunkTrace (n + 1) 0 devs fuel (sched 0) initOta).getLastD initOta) d := by
      unfold transferFinal transferTrace
      rw [List.getLastD_cons, List.range_succ_eq_map]
      show (((chunkTrace (n + 1) 0 devs fuel (sched 0) initOta ++
          transferTraceAux (n + 1) fuel devs sched (List.map Nat.succ (List.range n))
            ((chunkTrace (n + 1) 0 devs fuel (sched 0) initOta).getLastD initOta)).getLastD
              initOta) d) = _
      rw [getLastD_append]
      exact transferTraceAux_final_failed_stable (n + 1) fuel devs sched _ _ d hfail1
    rw [hfin]
    refine ⟨?_, hfail1⟩
    rw [c2]
    rfl

/-- C6 witness: one device that always ACKs the out-of-range index 50 in a
2-chunk session ends with `success = false`. -/
theorem ota_out_of_range_ack_ignored_witness :
    (transferFinal 2 4 [1] (fun _ => [[(1, 50)]]) 1).success = false ∧
    (transferFinal 2 4 [1] (fun _ => [[(1, 50)]]) 1).failed = true :=
  ota_out_of_range_ack_ignored.2 2 4 [1] (fun _ => [[(1, 50)]]) 1 (by decide)
    (by decide)
    (by
      intro i hi att hatt ack hack hsrc
      rw [List.mem_singleton] at hatt
      subst hatt
      rw [List.mem_singleton] at hack
      subst hack
      decide)

/-- C5 witness: the initial state of a concrete transfer satisfies the
session invariant (instantiating the invariant theorem at a member of the
trace). -/
theorem ota_tracker_invariants_witness :
    stateInv 1 initOta :=
  (ota_tracker_invariants 1 1 [1] (fun _ => [])).2 initOta
    (List.mem_cons_self initOta _)

end Swarmit
